import Mathlib

/-! Shallow embedding of the chunking-and-transcription pipeline of
`audio_transcriber.py` (class `AudioTranscriberApp`).

External collaborators (filesystem, ffmpeg, pydub decoding, the remote
transcription service) are modelled as explicit parameters describing their
outcomes.  Quantities are embedded exactly: byte sizes stay in bytes
(naturals) and durations stay in milliseconds (naturals; pydub reports
`len(audio)` in integral milliseconds).  The source compares derived floats
(`size_bytes / (1024*1024) > 25`, `len(audio) / 1000.0 > 1400`); since the
divisors are positive constants and the dividends integers, these
comparisons are equivalent to the exact integer comparisons
`size_bytes > 25 * 1024 * 1024` and `duration_ms > 1400 * 1000` used here
(the equivalences with the rational-arithmetic forms are proved below as
`size_mb_gt_iff`, `dur_s_gt_iff` and `exceeds_limits_iff`).  Temporary file
paths are modelled by the inductive `TPath`; the mutable `self.temp_files`
list and the set of temporary files present on disk are threaded explicitly
through the definitions.  Python float formatting inside log/error strings
is elided: error messages keep their identifying prefix and the chunk
number, not the interpolated float suffix. -/

/-- `self.max_file_size_mb = 25` (OpenAI size limit, in MB). -/
def max_file_size_mb : ℕ := 25

/-- `self.max_duration_seconds = 1400` (OpenAI duration limit, in seconds). -/
def max_duration_seconds : ℕ := 1400

/-- `get_audio_duration(file_path)`: the pydub duration probe.  The probe
outcome is a parameter: `some ms` when `AudioSegment.from_file` succeeds with
a clip of `ms` milliseconds, `none` when it raises.  The source returns
`len(audio) / 1000.0` seconds, or an error message instead of raising; the
embedding keeps the exact millisecond count `len(audio)`. -/
def get_audio_duration (probe : Option ℕ) : Except String ℕ :=
  match probe with
  | some ms => .ok ms
  | none => .error "Failed to get audio duration"

/-- Result quadruple of `needs_splitting`: `(needs_split, file_size,
duration, error)`, with the size in bytes and the duration in
milliseconds. -/
structure SplitCheck where
  needs_split : Bool
  file_size_bytes : ℕ
  duration_ms : Option ℕ
  error : Option String
deriving Repr, DecidableEq

/-- `needs_splitting(file_path)`.  `sizeRead` is the outcome of
`os.path.getsize` (`none` when it raises), `probe` the outcome of the pydub
decode used by `get_audio_duration`.  Mirrors the source: on a probe error it
returns `(False, size, None, error)`; on an outer exception it returns
`(False, 0, 0, error)`; otherwise `needs_split` is
`file_size_mb > self.max_file_size_mb or duration > self.max_duration_seconds`,
embedded as the equivalent exact comparisons on bytes and milliseconds. -/
def needs_splitting (sizeRead : Option ℕ) (probe : Option ℕ) : SplitCheck :=
  match sizeRead with
  | none => ⟨false, 0, some 0, some "Error checking file"⟩
  | some s =>
    match get_audio_duration probe with
    | .error e => ⟨false, s, none, some e⟩
    | .ok duration =>
      ⟨decide (s > max_file_size_mb * 1024 * 1024) ||
        decide (duration > max_duration_seconds * 1000), s, some duration, none⟩

/-- Outcome of the external ffmpeg invocation inside `compress_audio`:
either the subprocess fails (non-zero return code; `wrote` records whether a
partial output file was left on disk), or it succeeds and the written output
file has `sizeBytes` bytes and duration-probe outcome `probe`. -/
inductive CompressOutcome where
  | ffmpegFail (stderr : String) (wrote : Bool)
  | written (sizeBytes : ℕ) (probe : Option ℕ)

/-- `compress_audio(input_path, output_path)`: returns
`(True, {"size": ..., "duration": ...})` on success — embedded as the byte
size and millisecond duration of the output — and `(False, reason)` when the
transcoder fails, when the post-compression duration probe fails, or when the
compressed file still exceeds either limit
(`compressed_size > self.max_file_size_mb or duration >
self.max_duration_seconds`, embedded as the equivalent exact comparisons). -/
def compress_audio (o : CompressOutcome) : Except String (ℕ × ℕ) :=
  match o with
  | .ffmpegFail e _ => .error ("Compression failed: " ++ e)
  | .written s probe =>
    match get_audio_duration probe with
    | .error e => .error ("Could not verify compressed file duration: " ++ e)
    | .ok duration =>
      if s > max_file_size_mb * 1024 * 1024 ∨ duration > max_duration_seconds * 1000 then
        .error "Compressed file still exceeds limits"
      else .ok (s, duration)

/-- Identity of a temporary (or input) file handled by the pipeline. -/
inductive TPath where
  | original
  | compressed
  | chunk (i : ℕ)
deriving Repr, DecidableEq

/-- Default `max_size_mb=24` of `split_audio_file`. -/
def split_max_size_mb : ℕ := 24

/-- Default `max_duration_seconds=1350` of `split_audio_file`. -/
def split_max_duration_seconds : ℕ := 1350

/-- `max_chunk_duration_ms = min(max_duration_seconds * 1000,
(max_size_mb * 1024 * 1024 * 1000) // 8192)` with the default parameters of
`split_audio_file`. -/
def max_chunk_duration_ms : ℕ :=
  min (split_max_duration_seconds * 1000) (split_max_size_mb * 1024 * 1024 * 1000 / 8192)

/-- `num_chunks = math.ceil(total_duration_ms / max_chunk_duration_ms)`,
as an exact natural-number ceiling. -/
def num_chunks (total_duration_ms : ℕ) : ℕ :=
  (total_duration_ms + max_chunk_duration_ms - 1) / max_chunk_duration_ms

/-- `start_ms = i * max_chunk_duration_ms` for chunk `i` (0-based). -/
def chunk_start (i : ℕ) : ℕ := i * max_chunk_duration_ms

/-- `end_ms = min((i + 1) * max_chunk_duration_ms, total_duration_ms)`. -/
def chunk_end (total_duration_ms i : ℕ) : ℕ :=
  min ((i + 1) * max_chunk_duration_ms) total_duration_ms

/-- `len(chunk)` for chunk `i`, in milliseconds; the source's
`chunk_duration_seconds` is this value divided by 1000. -/
def chunk_dur_ms (total_duration_ms i : ℕ) : ℕ :=
  chunk_end total_duration_ms i - chunk_start i

/-- The chunk-validation test of `split_audio_file`:
`chunk_size_mb > self.max_file_size_mb or chunk_duration_seconds >
self.max_duration_seconds`, embedded as the equivalent exact comparisons on
bytes and milliseconds (note: the validation uses the instance limits 25 MB /
1400 s, not the splitter parameters 24 MB / 1350 s). -/
def exceeds_limits (sizeBytes : ℕ) (durationMs : ℕ) : Bool :=
  decide (sizeBytes > max_file_size_mb * 1024 * 1024) ||
    decide (durationMs > max_duration_seconds * 1000)

/-- External outcomes that `split_audio_file` depends on: the decoded total
duration of the input, and the byte size of each exported chunk file at the
primary (64 kbps) and fallback (32 kbps) bitrates. -/
structure SplitEnv where
  total_duration_ms : ℕ
  chunk_size_64k : ℕ → ℕ
  chunk_size_32k : ℕ → ℕ

/-- Mutable state threaded through the splitting loop: the local `chunks`
list, `self.temp_files`, and the set of temporary files present on disk. -/
structure SState where
  chunks : List TPath
  temp_files : List TPath
  disk : List TPath
deriving Repr, DecidableEq

/-- The error message `f"Unable to create valid chunks. Chunk {i+1} is still
..."` (float suffix elided), which names the offending 1-based chunk. -/
def chunk_error_msg (i : ℕ) : String :=
  "Unable to create valid chunks. Chunk " ++ toString (i + 1)

/-- One iteration of the `for i in range(num_chunks)` loop of
`split_audio_file`: export chunk `i` at 64 kbps (the chunk file appears on
disk), validate it; on violation remove it, re-export once at 32 kbps and
re-validate; on final violation abort the split (the 32 kbps file stays on
disk); on success append the chunk to `chunks` and to `self.temp_files`. -/
def chunkStep (env : SplitEnv) (st : SState) (i : ℕ) : Except (String × SState) SState :=
  let d := chunk_dur_ms env.total_duration_ms i
  let st1 : SState := { st with disk := st.disk ++ [TPath.chunk i] }
  if exceeds_limits (env.chunk_size_64k i) d then
    if exceeds_limits (env.chunk_size_32k i) d then
      .error (chunk_error_msg i, st1)
    else
      .ok { chunks := st1.chunks ++ [TPath.chunk i],
            temp_files := st1.temp_files ++ [TPath.chunk i], disk := st1.disk }
  else
    .ok { chunks := st1.chunks ++ [TPath.chunk i],
          temp_files := st1.temp_files ++ [TPath.chunk i], disk := st1.disk }

/-- The splitting loop: `n` remaining iterations starting at chunk index
`i`. -/
def split_go (env : SplitEnv) : ℕ → ℕ → SState → Except (String × SState) SState
  | _, 0, st => .ok st
  | i, n + 1, st =>
    match chunkStep env st i with
    | .error e => .error e
    | .ok st1 => split_go env (i + 1) n st1

/-- Result of `split_audio_file`: `(chunks, error)` plus the final
`self.temp_files` and on-disk temporary files. -/
structure SplitResult where
  chunks : Option (List TPath)
  error : Option String
  temp_files : List TPath
  disk : List TPath
deriving Repr, DecidableEq

/-- Packaging of the loop outcome as the return value of `split_audio_file`:
a finished loop returns `(chunks, None)`, an aborted loop `(None, error)`;
either way the mutated `self.temp_files` and the on-disk files carry over. -/
def splitResultOf : Except (String × SState) SState → SplitResult
  | .ok st => ⟨some st.chunks, none, st.temp_files, st.disk⟩
  | .error e => ⟨none, some e.1, e.2.temp_files, e.2.disk⟩

/-- `split_audio_file(input_path)` with its default parameters, starting from
temp-file list `temp0` and on-disk temporary files `disk0`. -/
def split_audio_file (env : SplitEnv) (temp0 disk0 : List TPath) : SplitResult :=
  splitResultOf (split_go env 0 (num_chunks env.total_duration_ms) ⟨[], temp0, disk0⟩)

/-- The chunk files produced by `n` consecutive loop iterations starting at
index `a`. -/
def chunkPaths : Nat → Nat → List TPath
  | _, 0 => []
  | a, n + 1 => TPath.chunk a :: chunkPaths (a + 1) n

/-- Chunk `i` passes validation: it is within limits at the primary bitrate,
or (after the single retry) at the fallback bitrate. -/
def chunk_ok (env : SplitEnv) (i : Nat) : Bool :=
  !(exceeds_limits (env.chunk_size_64k i) (chunk_dur_ms env.total_duration_ms i) &&
    exceeds_limits (env.chunk_size_32k i) (chunk_dur_ms env.total_duration_ms i))

/-- The per-chunk error placeholder
`f"[Error transcribing chunk {i+1}: {str(e)}]"` (`i` 0-based). -/
def transcript_placeholder (i : ℕ) (e : String) : String :=
  "[Error transcribing chunk " ++ toString (i + 1) ++ ": " ++ e ++ "]"

/-- The transcription loop of `transcribe_audio` (lines 820-840): submit the
`n` files in ordinal order; a successful call contributes its text, a failed
call contributes the error placeholder, and the loop never aborts.
`tr k` is the outcome of the service call for the file at position `k`. -/
def mkFragments (tr : ℕ → Except String String) (n : ℕ) : List String :=
  (List.range n).map fun i =>
    match tr i with
    | .ok t => t
    | .error e => transcript_placeholder i e

/-- The separator `f"\n\n--- Part {k} ---\n\n"` (`k` 1-based). -/
def partSeparator (k : ℕ) : String := "\n\n--- Part " ++ toString k ++ " ---\n\n"

/-- The combining loop `for i, transcript in enumerate(all_transcripts): if
i > 0: combined += sep(i+1); combined += transcript`, at loop index `i` with
accumulator `acc`. -/
def combine_go (i : ℕ) (acc : String) : List String → String
  | [] => acc
  | t :: rest => combine_go (i + 1) ((if 0 < i then acc ++ partSeparator (i + 1) else acc) ++ t) rest

/-- Transcript combination (lines 845-854): a single fragment passes through
unmodified, otherwise fragments are concatenated with part separators. -/
def combineTranscripts (ts : List String) : String :=
  if ts.length = 1 then ts.headD "" else combine_go 0 "" ts

/-- The combined shape described by the specification: fragment 1, then for
each `k = 2..N` the separator for part `k` followed by fragment `k`.  This is
the tail for parts `k, k+1, ...`. -/
def spec_join_tail (k : ℕ) : List String → String
  | [] => ""
  | t :: rest => partSeparator k ++ t ++ spec_join_tail (k + 1) rest

/-- The specification's combined transcript: a single fragment unmodified;
otherwise fragment 1 followed by separator-prefixed fragments 2..N. -/
def spec_combined : List String → String
  | [] => ""
  | [t] => t
  | t :: rest => t ++ spec_join_tail 2 rest

/-- The `cleanup_temp_files` loop: for each registered file, if it exists on
disk, attempt `os.remove` (`rf p = true` means removal raises; the exception
is caught and logged).  Returns the remaining on-disk files and the list of
files for which removal was attempted. -/
def cleanup_go (rf : TPath → Bool) : List TPath → List TPath → List TPath × List TPath
  | [], disk => (disk, [])
  | t :: ts, disk =>
    if t ∈ disk then
      ((cleanup_go rf ts (if rf t then disk else disk.erase t)).1,
       t :: (cleanup_go rf ts (if rf t then disk else disk.erase t)).2)
    else cleanup_go rf ts disk

/-- Result of `cleanup_temp_files`: the emptied `self.temp_files`, the
remaining on-disk temporary files, and the removal attempts made. -/
structure CleanupResult where
  temp_files : List TPath
  disk : List TPath
  attempted : List TPath
deriving Repr, DecidableEq

/-- `cleanup_temp_files` (lines 672-681): attempt removal of every
registered file that exists, absorb removal errors, then reset
`self.temp_files = []`. -/
def cleanup_temp_files (rf : TPath → Bool) (temp disk : List TPath) : CleanupResult :=
  ⟨[], (cleanup_go rf temp disk).1, (cleanup_go rf temp disk).2⟩

/-- External outcomes a whole `transcribe_audio` job depends on. -/
structure OrchEnv where
  sizeRead : Option ℕ
  probe : Option ℕ
  compress : CompressOutcome
  splitCompressed : SplitEnv
  splitOriginal : SplitEnv
  transcribe : ℕ → Except String String
  writeOk : Bool
  removeFails : TPath → Bool

/-- Which input-preparation path `transcribe_audio` took. -/
inductive ProcBranch where
  | analysisFailed
  | compressedDirect
  | splitOfCompressed
  | splitOfOriginal
  | passthrough
deriving Repr, DecidableEq

/-- Terminal outcome of the job body (before the `finally` cleanup). -/
inductive BodyOutcome where
  | failed (status : String)
  | completed (transcript : String)
deriving Repr, DecidableEq

/-- Result of the `try` body of `transcribe_audio`: outcome, branch taken,
files submitted to the service (in submission order), the per-chunk
fragments, `self.temp_files` as registered so far, and the temporary files
present on disk. -/
structure BodyResult where
  outcome : BodyOutcome
  branch : ProcBranch
  calls : List TPath
  fragments : List String
  registered : List TPath
  disk : List TPath

/-- Lines 817-860 of `transcribe_audio`: transcribe every file of
`files_to_transcribe` in order, combine the fragments, then write the output
file (`writeOk = false` means the write raises and the outer handler reports
a failure). -/
def finishJob (env : OrchEnv) (br : ProcBranch) (files : List TPath)
    (temp disk : List TPath) : BodyResult :=
  if env.writeOk then
    ⟨.completed (combineTranscripts (mkFragments env.transcribe files.length)), br, files,
     mkFragments env.transcribe files.length, temp, disk⟩
  else
    ⟨.failed "Transcription failed", br, files,
     mkFragments env.transcribe files.length, temp, disk⟩

/-- A call to `split_audio_file` from `transcribe_audio` followed by either
the error return (status message `failMsg`) or transcription of the produced
chunks. -/
def splitBranchResult (env : OrchEnv) (br : ProcBranch) (failMsg : String)
    (r : SplitResult) : BodyResult :=
  match r.chunks with
  | none => ⟨.failed failMsg, br, [], [], r.temp_files, r.disk⟩
  | some cs => finishJob env br cs r.temp_files r.disk

/-- A call to `split_audio_file` from `transcribe_audio` followed by either
the error return (status message `failMsg`) or transcription of the produced
chunks. -/
def splitBranchBody (env : OrchEnv) (senv : SplitEnv) (br : ProcBranch)
    (failMsg : String) (temp disk : List TPath) : BodyResult :=
  splitBranchResult env br failMsg (split_audio_file senv temp disk)

/-- The on-disk outcome of the ffmpeg invocation: the compressed temp file
is present after a successful run, and after a failed run only when the
failure left a partial output behind. -/
def compressDisk (o : CompressOutcome) : List TPath :=
  match o with
  | .ffmpegFail _ wrote => if wrote then [TPath.compressed] else []
  | .written _ _ => [TPath.compressed]

/-- Lines 765-808 of `transcribe_audio`: the file exceeds the limits, the
compressed temp path is already registered in `self.temp_files`, and
compression has run.  On a fitting compressed result, transcribe the
compressed file; if the result is reported fitting by `compress_audio` but
fails the orchestrator's re-check, split the compressed file; if
`compress_audio` failed (including "still exceeds limits"), split the
original file. -/
def processLarge (env : OrchEnv) : BodyResult :=
  match compress_audio env.compress with
  | .ok q =>
    if q.1 ≤ max_file_size_mb * 1024 * 1024 ∧ q.2 ≤ max_duration_seconds * 1000 then
      finishJob env .compressedDirect [TPath.compressed] [TPath.compressed]
        (compressDisk env.compress)
    else
      splitBranchBody env env.splitCompressed .splitOfCompressed "Splitting failed"
        [TPath.compressed] (compressDisk env.compress)
  | .error _ =>
    splitBranchBody env env.splitOriginal .splitOfOriginal "Processing failed"
      [TPath.compressed] (compressDisk env.compress)

/-- The branch on the analysis result (lines 751-812): abort on an analysis
error, process a too-large file, or pass the original file through. -/
def afterAnalysis (env : OrchEnv) (chk : SplitCheck) : BodyResult :=
  match chk.error with
  | some _ => ⟨.failed "Analysis failed", .analysisFailed, [], [], [], []⟩
  | none =>
    if chk.needs_split then processLarge env
    else finishJob env .passthrough [TPath.original] [] []

/-- The `try` body of `transcribe_audio` (lines 737-885): analyze, then
either pass the original through, use the compressed file, or split (the
compressed file after a successful compression that still exceeds limits, or
the original file when compression failed), then transcribe and combine. -/
def transcribe_body (env : OrchEnv) : BodyResult :=
  afterAnalysis env (needs_splitting env.sizeRead env.probe)

/-- Final result of one `transcribe_audio` job, after the `finally` block ran
`cleanup_temp_files`. -/
structure JobResult where
  outcome : BodyOutcome
  branch : ProcBranch
  calls : List TPath
  fragments : List String
  registered : List TPath
  temp_files : List TPath
  attempted : List TPath
  disk : List TPath

/-- `transcribe_audio` (lines 737-913): run the body; whatever its outcome,
the `finally` block runs `cleanup_temp_files` on every registered temporary
file. -/
def transcribe_audio (env : OrchEnv) : JobResult :=
  ⟨(transcribe_body env).outcome, (transcribe_body env).branch, (transcribe_body env).calls,
   (transcribe_body env).fragments, (transcribe_body env).registered,
   (cleanup_temp_files env.removeFails (transcribe_body env).registered
     (transcribe_body env).disk).temp_files,
   (cleanup_temp_files env.removeFails (transcribe_body env).registered
     (transcribe_body env).disk).attempted,
   (cleanup_temp_files env.removeFails (transcribe_body env).registered
     (transcribe_body env).disk).disk⟩


/-- The character list of the part separator for part `k`. -/
def sepData (k : ℕ) : List Char := (partSeparator k).data

/-- Split a character sequence at the first occurrence of the nonempty
pattern `sep`: the text before the occurrence and the text after it. -/
def splitOnFirst (sep : List Char) : List Char → Option (List Char × List Char)
  | [] => none
  | c :: rest =>
    if sep.isPrefixOf (c :: rest) then some ([], (c :: rest).drop sep.length)
    else
      match splitOnFirst sep rest with
      | some p => some (c :: p.1, p.2)
      | none => none

/-- Recover the segments of a combined transcript by splitting at the `n`
separators for parts `k, k+1, ...`, in that order. -/
def recoverSegs : ℕ → ℕ → List Char → Option (List (List Char))
  | 0, _, s => some [s]
  | n + 1, k, s =>
    match splitOnFirst (sepData k) s with
    | some p => (recoverSegs n (k + 1) p.2).map (fun l => p.1 :: l)
    | none => none

/-! Splitter lemmas. -/

/-- With the default parameters the duration limit is the tighter bound:
the ceiling is 1350000 ms. -/
theorem max_chunk_duration_ms_eq : max_chunk_duration_ms = 1350000 := rfl

theorem chunkPaths_length : ∀ a n, (chunkPaths a n).length = n := by
  intro a n
  induction n generalizing a with
  | zero => rfl
  | succ n ih => simp [chunkPaths, ih]

theorem mem_chunkPaths : ∀ a n j, TPath.chunk j ∈ chunkPaths a n ↔ a ≤ j ∧ j < a + n := by
  intro a n
  induction n generalizing a with
  | zero => intro j; simp [chunkPaths]
  | succ n ih =>
    intro j
    show TPath.chunk j ∈ TPath.chunk a :: chunkPaths (a + 1) n ↔ _
    rw [List.mem_cons, ih (a + 1)]
    constructor
    · rintro (h | h)
      · simp only [TPath.chunk.injEq] at h; omega
      · omega
    · intro h
      by_cases hj : j = a
      · subst hj; exact Or.inl rfl
      · exact Or.inr (by omega)

theorem chunkStep_ok {env : SplitEnv} {st : SState} {i : Nat} (h : chunk_ok env i = true) :
    chunkStep env st i = .ok ⟨st.chunks ++ [TPath.chunk i], st.temp_files ++ [TPath.chunk i],
      st.disk ++ [TPath.chunk i]⟩ := by
  unfold chunk_ok at h
  unfold chunkStep
  rcases h64 : exceeds_limits (env.chunk_size_64k i) (chunk_dur_ms env.total_duration_ms i) with _ | _ <;>
    rcases h32 : exceeds_limits (env.chunk_size_32k i) (chunk_dur_ms env.total_duration_ms i) with _ | _ <;>
      simp_all

theorem chunkStep_bad {env : SplitEnv} {st : SState} {i : Nat} (h : chunk_ok env i = false) :
    chunkStep env st i = .error (chunk_error_msg i,
      ⟨st.chunks, st.temp_files, st.disk ++ [TPath.chunk i]⟩) := by
  unfold chunk_ok at h
  unfold chunkStep
  rcases h64 : exceeds_limits (env.chunk_size_64k i) (chunk_dur_ms env.total_duration_ms i) with _ | _ <;>
    rcases h32 : exceeds_limits (env.chunk_size_32k i) (chunk_dur_ms env.total_duration_ms i) with _ | _ <;>
      simp_all

theorem split_go_ok (env : SplitEnv) : ∀ (n a : Nat) (st : SState),
    (∀ j, j < n → chunk_ok env (a + j) = true) →
    split_go env a n st = .ok ⟨st.chunks ++ chunkPaths a n, st.temp_files ++ chunkPaths a n,
      st.disk ++ chunkPaths a n⟩ := by
  intro n
  induction n with
  | zero => intro a st _; simp [split_go, chunkPaths]
  | succ n ih =>
    intro a st h
    have h0 : chunk_ok env a = true := by simpa using h 0 (Nat.succ_pos n)
    simp only [split_go, chunkStep_ok h0]
    rw [ih (a + 1) _ (fun j hj => by
      have h2 := h (j + 1) (by omega)
      rw [show a + 1 + j = a + (j + 1) by omega]
      exact h2)]
    simp [chunkPaths]

theorem split_go_bad (env : SplitEnv) : ∀ (k n a : Nat) (st : SState),
    k < n → chunk_ok env (a + k) = false →
    (∀ j, j < k → chunk_ok env (a + j) = true) →
    split_go env a n st = .error (chunk_error_msg (a + k),
      ⟨st.chunks ++ chunkPaths a k, st.temp_files ++ chunkPaths a k,
       st.disk ++ chunkPaths a (k + 1)⟩) := by
  intro k
  induction k with
  | zero =>
    intro n a st hn hbad _
    match n, hn with
    | n + 1, _ =>
      simp only [split_go, chunkStep_bad (by simpa using hbad)]
      simp [chunkPaths]
  | succ k ih =>
    intro n a st hn hbad hgood
    match n, hn with
    | n + 1, _ =>
      have h0 : chunk_ok env a = true := by simpa using hgood 0 (Nat.succ_pos k)
      simp only [split_go, chunkStep_ok h0]
      rw [ih n (a + 1) _ (by omega)
        (by rw [show a + 1 + k = a + (k + 1) by omega]; exact hbad)
        (fun j hj => by
          have h2 := hgood (j + 1) (by omega)
          rw [show a + 1 + j = a + (j + 1) by omega]
          exact h2)]
      rw [show a + 1 + k = a + (k + 1) by omega]
      simp [chunkPaths]

theorem chunkStep_ok_inv {env : SplitEnv} {st st1 : SState} {i : Nat}
    (h : chunkStep env st i = .ok st1) :
    st1 = ⟨st.chunks ++ [TPath.chunk i], st.temp_files ++ [TPath.chunk i],
      st.disk ++ [TPath.chunk i]⟩ := by
  unfold chunkStep at h
  rcases h64 : exceeds_limits (env.chunk_size_64k i) (chunk_dur_ms env.total_duration_ms i) with _ | _ <;>
    rcases h32 : exceeds_limits (env.chunk_size_32k i) (chunk_dur_ms env.total_duration_ms i) with _ | _ <;>
      simp_all

theorem split_go_ok_length (env : SplitEnv) : ∀ (n a : Nat) (st st1 : SState),
    split_go env a n st = .ok st1 → st1.chunks.length = st.chunks.length + n := by
  intro n
  induction n with
  | zero => intro a st st1 h; simp [split_go] at h; simp [← h]
  | succ n ih =>
    intro a st st1 h
    rw [split_go] at h
    rcases hs : chunkStep env st a with e | st2
    · rw [hs] at h; exact absurd h (by simp)
    · rw [hs] at h
      simp only [] at h
      have h2 := ih (a + 1) st2 st1 h
      have h3 := chunkStep_ok_inv hs
      rw [h2, h3]
      simp
      omega


/-- Computation rule: `split_audio_file` when the loop runs to completion. -/
theorem split_audio_file_eq_ok (env : SplitEnv) (t0 d0 : List TPath) (st : SState)
    (hs : split_go env 0 (num_chunks env.total_duration_ms) ⟨[], t0, d0⟩ = .ok st) :
    split_audio_file env t0 d0 = ⟨some st.chunks, none, st.temp_files, st.disk⟩ := by
  rw [split_audio_file, hs]
  rfl

/-- Computation rule: `split_audio_file` when the loop aborts. -/
theorem split_audio_file_eq_err (env : SplitEnv) (t0 d0 : List TPath) (msg : String)
    (st : SState)
    (hs : split_go env 0 (num_chunks env.total_duration_ms) ⟨[], t0, d0⟩ = .error (msg, st)) :
    split_audio_file env t0 d0 = ⟨none, some msg, st.temp_files, st.disk⟩ := by
  rw [split_audio_file, hs]
  rfl

/-- The splitting loop started at index 0 on the initial state, when every
chunk passes validation. -/
theorem split_go_ok_start (env : SplitEnv) (t0 d0 : List TPath) (N : Nat)
    (h : ∀ j, j < N → chunk_ok env j = true) :
    split_go env 0 N ⟨[], t0, d0⟩ =
      .ok ⟨chunkPaths 0 N, t0 ++ chunkPaths 0 N, d0 ++ chunkPaths 0 N⟩ := by
  have hs := split_go_ok env N 0 ⟨[], t0, d0⟩ (fun j hj => by simpa using h j hj)
  rw [hs]
  simp only [SState.chunks, SState.temp_files, SState.disk, List.nil_append]

/-- The splitting loop started at index 0 on the initial state, when chunk
`k` is the first to fail validation at both bitrates. -/
theorem split_go_bad_start (env : SplitEnv) (t0 d0 : List TPath) (N k : Nat)
    (hk : k < N) (hbad : chunk_ok env k = false)
    (hgood : ∀ j, j < k → chunk_ok env j = true) :
    split_go env 0 N ⟨[], t0, d0⟩ =
      .error (chunk_error_msg k,
        ⟨chunkPaths 0 k, t0 ++ chunkPaths 0 k, d0 ++ chunkPaths 0 (k + 1)⟩) := by
  have hs := split_go_bad env k N 0 ⟨[], t0, d0⟩ hk (by simpa using hbad)
    (fun j hj => by simpa using hgood j hj)
  rw [hs]
  simp only [SState.chunks, SState.temp_files, SState.disk, List.nil_append, Nat.zero_add]

/-- Computation rule of `split_audio_file` for a finished loop, with the
loop count abbreviated and the final state given fieldwise. -/
theorem split_audio_file_eq_ok2 (env : SplitEnv) (t0 d0 cs tf dk : List TPath)
    (N : Nat) (hN : num_chunks env.total_duration_ms = N)
    (hs : split_go env 0 N ⟨[], t0, d0⟩ = .ok ⟨cs, tf, dk⟩) :
    split_audio_file env t0 d0 = ⟨some cs, none, tf, dk⟩ := by
  subst hN
  exact split_audio_file_eq_ok env t0 d0 ⟨cs, tf, dk⟩ hs

/-- Computation rule of `split_audio_file` for an aborted loop, with the
loop count abbreviated and the final state given fieldwise. -/
theorem split_audio_file_eq_err2 (env : SplitEnv) (t0 d0 : List TPath) (msg : String)
    (cs tf dk : List TPath) (N : Nat) (hN : num_chunks env.total_duration_ms = N)
    (hs : split_go env 0 N ⟨[], t0, d0⟩ = .error (msg, ⟨cs, tf, dk⟩)) :
    split_audio_file env t0 d0 = ⟨none, some msg, tf, dk⟩ := by
  subst hN
  exact split_audio_file_eq_err env t0 d0 msg ⟨cs, tf, dk⟩ hs

/-- When every chunk passes validation (at the primary or the fallback
bitrate), `split_audio_file` succeeds with one chunk per loop iteration,
all of them registered in `self.temp_files` and present on disk. -/
theorem split_audio_file_ok (env : SplitEnv) (t0 d0 : List TPath)
    (h : ∀ j, j < num_chunks env.total_duration_ms → chunk_ok env j = true) :
    split_audio_file env t0 d0 =
      ⟨some (chunkPaths 0 (num_chunks env.total_duration_ms)), none,
       t0 ++ chunkPaths 0 (num_chunks env.total_duration_ms),
       d0 ++ chunkPaths 0 (num_chunks env.total_duration_ms)⟩ := by
  generalize hN : num_chunks env.total_duration_ms = N at h ⊢
  exact split_audio_file_eq_ok2 env t0 d0 _ _ _ N hN (split_go_ok_start env t0 d0 N h)

/-- When chunk `k` is the first to fail validation at both bitrates,
`split_audio_file` aborts with the message naming chunk `k+1`; chunks
`0..k-1` are registered in `self.temp_files`, while the files of chunks
`0..k` (including the failing one) are on disk. -/
theorem split_audio_file_bad (env : SplitEnv) (t0 d0 : List TPath) (k : Nat)
    (hk : k < num_chunks env.total_duration_ms) (hbad : chunk_ok env k = false)
    (hgood : ∀ j, j < k → chunk_ok env j = true) :
    split_audio_file env t0 d0 =
      ⟨none, some (chunk_error_msg k), t0 ++ chunkPaths 0 k, d0 ++ chunkPaths 0 (k + 1)⟩ := by
  generalize hN : num_chunks env.total_duration_ms = N at hk
  exact split_audio_file_eq_err2 env t0 d0 _ _ _ _ N hN
    (split_go_bad_start env t0 d0 N k hk hbad hgood)

/-- When `split_audio_file` succeeds, it returns one chunk per loop
iteration: `len(chunks) = num_chunks`. -/
theorem split_chunks_length (env : SplitEnv) (t0 d0 : List TPath) (l : List TPath)
    (h : (split_audio_file env t0 d0).chunks = some l) :
    l.length = num_chunks env.total_duration_ms := by
  rcases hs : split_go env 0 (num_chunks env.total_duration_ms) ⟨[], t0, d0⟩ with ⟨msg, st⟩ | st
  · rw [split_audio_file_eq_err env t0 d0 msg st hs] at h
    exact absurd (h : (none : Option (List TPath)) = some l) (by simp)
  · rw [split_audio_file_eq_ok env t0 d0 st hs] at h
    have h4 := Option.some.inj (h : some st.chunks = some l)
    have h2 := split_go_ok_length env (num_chunks env.total_duration_ms) 0 ⟨[], t0, d0⟩ st hs
    have h3 : st.chunks.length = num_chunks env.total_duration_ms := by simpa using h2
    rw [← h4, h3]

/-! Arithmetic facts about the chunk grid. -/

/-- `num_chunks` is the exact ceiling: `N * ceiling` covers the total, and
with a positive total, `N - 1` chunks would not. -/
theorem num_chunks_spec (total : ℕ) :
    total ≤ num_chunks total * max_chunk_duration_ms ∧
      (0 < total → (num_chunks total - 1) * max_chunk_duration_ms < total) := by
  simp only [num_chunks, max_chunk_duration_ms_eq]
  omega

theorem num_chunks_pos (total : ℕ) (h : 0 < total) : 0 < num_chunks total := by
  simp only [num_chunks, max_chunk_duration_ms_eq]
  omega

theorem num_chunks_zero : num_chunks 0 = 0 := rfl

/-- Every instant `t` of the input timeline `[0, total)` lies in exactly one
chunk interval `[chunk_start i, chunk_end total i)`. -/
theorem chunk_partition (total t : ℕ) (ht : t < total) :
    ∃! i, i < num_chunks total ∧ chunk_start i ≤ t ∧ t < chunk_end total i := by
  simp only [num_chunks, chunk_start, chunk_end, max_chunk_duration_ms_eq]
  refine ⟨t / 1350000, ⟨⟨?_, ?_, ?_⟩, ?_⟩⟩
  · omega
  · omega
  · omega
  · rintro y ⟨h1, h2, h3⟩
    omega

theorem sum_sub_monotone (f : ℕ → ℕ) (hf : ∀ i, f i ≤ f (i + 1)) :
    ∀ n, (Finset.range n).sum (fun i => f (i + 1) - f i) = f n - f 0 := by
  intro n
  induction n with
  | zero => simp
  | succ n ih =>
    rw [Finset.sum_range_succ, ih]
    have hm : Monotone f := monotone_nat_of_le_succ hf
    have h1 : f 0 ≤ f n := hm (Nat.zero_le n)
    have h2 : f n ≤ f (n + 1) := hf n
    omega

/-- The chunk interval lengths `end - start` sum to the total duration,
exactly. -/
theorem chunk_durations_sum (total : ℕ) :
    (Finset.range (num_chunks total)).sum
      (fun i => chunk_end total i - chunk_start i) = total := by
  rcases Nat.eq_zero_or_pos total with h0 | hpos
  · subst h0
    rw [num_chunks_zero]
    simp [chunk_end]
  · have hspec := num_chunks_spec total
    generalize hN : num_chunks total = N at hspec ⊢
    have key : ∀ i ∈ Finset.range N, chunk_end total i - chunk_start i =
        min ((i + 1) * max_chunk_duration_ms) total -
          min (i * max_chunk_duration_ms) total := by
      intro i hi
      rw [Finset.mem_range] at hi
      have hs2 := hspec.2 hpos
      have hle : i * max_chunk_duration_ms ≤ total := by
        rw [max_chunk_duration_ms_eq] at hs2 ⊢
        omega
      rw [chunk_end, chunk_start, Nat.min_eq_left hle]
    rw [Finset.sum_congr rfl key]
    rw [sum_sub_monotone (fun i => min (i * max_chunk_duration_ms) total)
      (fun i => min_le_min (Nat.mul_le_mul_right _ (Nat.le_succ i)) (le_refl total))]
    have hNc : total ≤ N * max_chunk_duration_ms := hspec.1
    rw [Nat.min_eq_right hNc]
    simp

/-! Claims about the Splitter. -/

/-- C2 (counterexample): on a zero-duration input `split_audio_file` returns
the empty chunk list as a success (`num_chunks 0 = 0`, the loop body never
runs), contradicting the claim that every accepted input yields at least one
chunk. -/
theorem c2_counterexample :
    (split_audio_file ⟨0, fun _ => 0, fun _ => 0⟩ [] []).chunks = some [] ∧
      (split_audio_file ⟨0, fun _ => 0, fun _ => 0⟩ [] []).error = none :=
  ⟨rfl, rfl⟩

/-- C2 (amended): for every input with a positive decoded duration, a
successful `split_audio_file` returns at least one chunk (exactly
`num_chunks` of them); only the zero-duration input produces the
empty-chunk-list success exhibited by the counterexample. -/
theorem c2_amended (env : SplitEnv) (t0 d0 : List TPath) (l : List TPath)
    (hpos : 0 < env.total_duration_ms)
    (h : (split_audio_file env t0 d0).chunks = some l) :
    0 < l.length ∧ l.length = num_chunks env.total_duration_ms := by
  have hlen := split_chunks_length env t0 d0 l h
  exact ⟨hlen ▸ num_chunks_pos _ hpos, hlen⟩

theorem c2_amended_witness :
    0 < ([TPath.chunk 0] : List TPath).length ∧
      ([TPath.chunk 0] : List TPath).length = num_chunks 1000 :=
  c2_amended ⟨1000, fun _ => 0, fun _ => 0⟩ [] [] [TPath.chunk 0] (by decide) (by rfl)

/-- C3 (counterexample): a 1-second input whose single chunk encodes to
30 MiB (31457280 bytes) at both bitrates makes the split abort on chunk 1;
the chunk file was written to disk (re-exported at 32 kbps) yet is absent
from the temp-file cleanup list, because `split_audio_file` registers a chunk
only after it passes validation, not upon creation. -/
theorem c3_counterexample :
    (split_audio_file ⟨1000, fun _ => 31457280, fun _ => 31457280⟩ [] []).error =
        some (chunk_error_msg 0) ∧
      TPath.chunk 0 ∈
        (split_audio_file ⟨1000, fun _ => 31457280, fun _ => 31457280⟩ [] []).disk ∧
      TPath.chunk 0 ∉
        (split_audio_file ⟨1000, fun _ => 31457280, fun _ => 31457280⟩ [] []).temp_files := by
  refine ⟨rfl, by decide, by decide⟩

/-- C3 (amended): registration happens after validation, not immediately
upon creation: when chunk `k` is the first to fail validation at both
bitrates, every earlier (validated) chunk is in the cleanup list, but the
failing chunk's file is on disk and not in the cleanup list. -/
theorem c3_amended (env : SplitEnv) (t0 d0 : List TPath) (k : ℕ)
    (hk : k < num_chunks env.total_duration_ms) (hbad : chunk_ok env k = false)
    (hgood : ∀ j, j < k → chunk_ok env j = true) (hout : TPath.chunk k ∉ t0) :
    (split_audio_file env t0 d0).temp_files = t0 ++ chunkPaths 0 k ∧
      (split_audio_file env t0 d0).disk = d0 ++ chunkPaths 0 (k + 1) ∧
      TPath.chunk k ∈ (split_audio_file env t0 d0).disk ∧
      TPath.chunk k ∉ (split_audio_file env t0 d0).temp_files := by
  have hr := split_audio_file_bad env t0 d0 k hk hbad hgood
  rw [hr]
  refine ⟨rfl, rfl, ?_, ?_⟩
  · have hmem : TPath.chunk k ∈ chunkPaths 0 (k + 1) :=
      (mem_chunkPaths 0 (k + 1) k).mpr ⟨Nat.zero_le k, by omega⟩
    exact List.mem_append.mpr (Or.inr hmem)
  · intro hmem
    rcases List.mem_append.mp hmem with h1 | h2
    · exact hout h1
    · have := (mem_chunkPaths 0 k k).mp h2
      omega

theorem c3_amended_witness :
    (split_audio_file ⟨1000, fun _ => 31457280, fun _ => 31457280⟩ [] []).temp_files =
        [] ++ chunkPaths 0 0 ∧
      (split_audio_file ⟨1000, fun _ => 31457280, fun _ => 31457280⟩ [] []).disk =
        [] ++ chunkPaths 0 (0 + 1) ∧
      TPath.chunk 0 ∈
        (split_audio_file ⟨1000, fun _ => 31457280, fun _ => 31457280⟩ [] []).disk ∧
      TPath.chunk 0 ∉
        (split_audio_file ⟨1000, fun _ => 31457280, fun _ => 31457280⟩ [] []).temp_files :=
  c3_amended ⟨1000, fun _ => 31457280, fun _ => 31457280⟩ [] [] 0 (by decide) (by decide)
    (fun j hj => absurd hj (by omega)) (by decide)

/-- C6: the chunk duration ceiling is the minimum of the duration limit and
the size-derived bound; a successful split returns exactly
`N = ceil(total / ceiling)` chunks; chunk `i` covers
`[i * ceiling, min((i+1) * ceiling, total))`, these intervals partition
`[0, total)`, and their lengths sum to the total duration exactly. -/
theorem c6_split_geometry :
    (max_chunk_duration_ms =
        min (split_max_duration_seconds * 1000)
          (split_max_size_mb * 1024 * 1024 * 1000 / 8192)) ∧
      (∀ total : ℕ, total ≤ num_chunks total * max_chunk_duration_ms ∧
        (0 < total → (num_chunks total - 1) * max_chunk_duration_ms < total)) ∧
      (∀ (env : SplitEnv) (t0 d0 l : List TPath),
        (split_audio_file env t0 d0).chunks = some l →
        l.length = num_chunks env.total_duration_ms) ∧
      (∀ total t : ℕ, t < total →
        ∃! i, i < num_chunks total ∧ chunk_start i ≤ t ∧ t < chunk_end total i) ∧
      (∀ total : ℕ, (Finset.range (num_chunks total)).sum
        (fun i => chunk_end total i - chunk_start i) = total) :=
  ⟨rfl, num_chunks_spec, split_chunks_length, chunk_partition, chunk_durations_sum⟩

theorem c6_split_geometry_witness :
    1500000 < 2000000 ∧
      (∃! i, i < num_chunks 2000000 ∧ chunk_start i ≤ 1500000 ∧
        1500000 < chunk_end 2000000 i) :=
  ⟨by decide, c6_split_geometry.2.2.2.1 2000000 1500000 (by decide)⟩

/-- C7: a chunk that passes validation (directly at 64 kbps, or after the
single 32 kbps re-encode) is kept and the split succeeds with every chunk in
the returned list; if some chunk violates the limits at both bitrates, the
first such chunk aborts the entire split: no chunk list is returned and the
error names that chunk. -/
theorem c7_fallback_retry :
    (∀ (env : SplitEnv) (t0 d0 : List TPath),
        (∀ i, i < num_chunks env.total_duration_ms → chunk_ok env i = true) →
        (split_audio_file env t0 d0).chunks =
            some (chunkPaths 0 (num_chunks env.total_duration_ms)) ∧
          (split_audio_file env t0 d0).error = none) ∧
      (∀ (env : SplitEnv) (t0 d0 : List TPath) (k : ℕ),
        k < num_chunks env.total_duration_ms →
        exceeds_limits (env.chunk_size_64k k) (chunk_dur_ms env.total_duration_ms k) = true →
        exceeds_limits (env.chunk_size_32k k) (chunk_dur_ms env.total_duration_ms k) = true →
        (∀ j, j < k → chunk_ok env j = true) →
        (split_audio_file env t0 d0).chunks = none ∧
          (split_audio_file env t0 d0).error = some (chunk_error_msg k)) := by
  constructor
  · intro env t0 d0 h
    rw [split_audio_file_ok env t0 d0 h]
    exact ⟨rfl, rfl⟩
  · intro env t0 d0 k hk h64 h32 hgood
    have hbad : chunk_ok env k = false := by
      unfold chunk_ok
      rw [h64, h32]
      rfl
    rw [split_audio_file_bad env t0 d0 k hk hbad hgood]
    exact ⟨rfl, rfl⟩

theorem c7_fallback_retry_witness :
    (split_audio_file ⟨1000, fun _ => 31457280, fun _ => 31457280⟩ [] []).chunks = none ∧
      (split_audio_file ⟨1000, fun _ => 31457280, fun _ => 31457280⟩ [] []).error =
        some (chunk_error_msg 0) :=
  c7_fallback_retry.2 ⟨1000, fun _ => 31457280, fun _ => 31457280⟩ [] [] 0 (by decide)
    (by decide) (by decide) (fun j hj => absurd hj (by omega))

/-! Orchestrator lemmas. -/

/-- Bridge: the source's float comparison `size_bytes / (1024*1024) > 25`
matches the embedded exact byte comparison. -/
theorem size_mb_gt_iff (s : ℕ) : ((s : ℚ) / (1024 * 1024) > 25) ↔ s > 25 * 1024 * 1024 := by
  rw [gt_iff_lt, lt_div_iff (by norm_num : (0 : ℚ) < 1024 * 1024)]
  constructor <;> intro h <;> exact_mod_cast h

/-- Bridge: the source's float comparison `len(audio) / 1000.0 > 1400`
matches the embedded exact millisecond comparison. -/
theorem dur_s_gt_iff (ms : ℕ) : ((ms : ℚ) / 1000 > 1400) ↔ ms > 1400 * 1000 := by
  rw [gt_iff_lt, lt_div_iff (by norm_num : (0 : ℚ) < 1000)]
  constructor <;> intro h <;> exact_mod_cast h

/-- Bridge: the chunk-validation test agrees with the source's
rational-arithmetic reading. -/
theorem exceeds_limits_iff (s ms : ℕ) :
    exceeds_limits s ms = true ↔ ((s : ℚ) / (1024 * 1024) > 25 ∨ (ms : ℚ) / 1000 > 1400) := by
  rw [exceeds_limits]
  simp only [Bool.or_eq_true, decide_eq_true_eq, max_file_size_mb, max_duration_seconds]
  rw [← size_mb_gt_iff, ← dur_s_gt_iff]

/-- Computation rule: `os.path.getsize` raised. -/
theorem needs_splitting_sizeFail (probe : Option ℕ) :
    needs_splitting none probe = ⟨false, 0, some 0, some "Error checking file"⟩ := rfl

/-- Computation rule: the duration probe failed while the size was read. -/
theorem needs_splitting_probeFail (s : ℕ) :
    needs_splitting (some s) none =
      ⟨false, s, none, some "Failed to get audio duration"⟩ := rfl

/-- Computation rule: size and duration both known. -/
theorem needs_splitting_known (s ms : ℕ) :
    needs_splitting (some s) (some ms) =
      ⟨decide (s > max_file_size_mb * 1024 * 1024) ||
        decide (ms > max_duration_seconds * 1000), s, some ms, none⟩ := rfl

/-- The limit decision on a fully probed file, in exact units. -/
theorem needs_split_iff (s ms : ℕ) :
    (needs_splitting (some s) (some ms)).needs_split = true ↔
      (s > 25 * 1024 * 1024 ∨ ms > 1400 * 1000) := by
  rw [needs_splitting_known]
  simp [max_file_size_mb, max_duration_seconds]

/-- The limit decision on a fully probed file, in the source's float
reading. -/
theorem needs_split_iff_rat (s ms : ℕ) :
    (needs_splitting (some s) (some ms)).needs_split = true ↔
      ((s : ℚ) / (1024 * 1024) > 25 ∨ (ms : ℚ) / 1000 > 1400) := by
  rw [needs_split_iff, ← size_mb_gt_iff, ← dur_s_gt_iff]

/-- A successful `compress_audio` always reports a file within both limits:
the success path is only reachable when the post-compression check passed. -/
theorem compress_audio_ok_le (o : CompressOutcome) (q : ℕ × ℕ)
    (h : compress_audio o = .ok q) :
    q.1 ≤ max_file_size_mb * 1024 * 1024 ∧ q.2 ≤ max_duration_seconds * 1000 := by
  match o with
  | .ffmpegFail e w => exact absurd h (by simp [compress_audio])
  | .written s probe =>
    match probe with
    | none => exact absurd h (by simp [compress_audio, get_audio_duration])
    | some ms =>
      simp only [compress_audio, get_audio_duration] at h
      by_cases hc : s > max_file_size_mb * 1024 * 1024 ∨ ms > max_duration_seconds * 1000
      · rw [if_pos hc] at h
        exact absurd h (by simp)
      · rw [if_neg hc] at h
        have hq : (s, ms) = q := by
          have h2 : Except.ok (ε := String) (s, ms) = Except.ok q := h
          exact Except.ok.inj h2
        push_neg at hc
        rw [← hq]
        exact hc

/-- Computation rule: analysis error aborts the body. -/
theorem afterAnalysis_err (env : OrchEnv) (b : Bool) (s : ℕ) (d : Option ℕ) (e : String) :
    afterAnalysis env ⟨b, s, d, some e⟩ =
      ⟨.failed "Analysis failed", .analysisFailed, [], [], [], []⟩ := rfl

/-- Computation rule: a too-large file goes to compression/splitting. -/
theorem afterAnalysis_split (env : OrchEnv) (s : ℕ) (d : Option ℕ) :
    afterAnalysis env ⟨true, s, d, none⟩ = processLarge env := rfl

/-- Computation rule: a file within limits passes through unchanged. -/
theorem afterAnalysis_pass (env : OrchEnv) (s : ℕ) (d : Option ℕ) :
    afterAnalysis env ⟨false, s, d, none⟩ =
      finishJob env .passthrough [TPath.original] [] [] := rfl

/-- Computation rule: compression succeeded and the orchestrator's re-check
passes. -/
theorem processLarge_fit (env : OrchEnv) (q : ℕ × ℕ)
    (h : compress_audio env.compress = .ok q)
    (hfit : q.1 ≤ max_file_size_mb * 1024 * 1024 ∧ q.2 ≤ max_duration_seconds * 1000) :
    processLarge env = finishJob env .compressedDirect [TPath.compressed]
      [TPath.compressed] (compressDisk env.compress) := by
  unfold processLarge
  rw [h]
  exact if_pos hfit

/-- Computation rule: compression succeeded but the orchestrator's re-check
fails (the branch that would split the compressed file). -/
theorem processLarge_unfit (env : OrchEnv) (q : ℕ × ℕ)
    (h : compress_audio env.compress = .ok q)
    (hunfit : ¬(q.1 ≤ max_file_size_mb * 1024 * 1024 ∧ q.2 ≤ max_duration_seconds * 1000)) :
    processLarge env = splitBranchBody env env.splitCompressed .splitOfCompressed
      "Splitting failed" [TPath.compressed] (compressDisk env.compress) := by
  unfold processLarge
  rw [h]
  exact if_neg hunfit

/-- Computation rule: compression failed (ffmpeg error, probe error, or
still-too-big), so the original file is split. -/
theorem processLarge_compressFail (env : OrchEnv) (m : String)
    (h : compress_audio env.compress = .error m) :
    processLarge env = splitBranchBody env env.splitOriginal .splitOfOriginal
      "Processing failed" [TPath.compressed] (compressDisk env.compress) := by
  unfold processLarge
  rw [h]

/-- The cleanup in the `finally` block does not change the job outcome. -/
theorem transcribe_audio_outcome (env : OrchEnv) :
    (transcribe_audio env).outcome = (transcribe_body env).outcome := rfl

theorem transcribe_audio_branch (env : OrchEnv) :
    (transcribe_audio env).branch = (transcribe_body env).branch := rfl

theorem transcribe_audio_calls (env : OrchEnv) :
    (transcribe_audio env).calls = (transcribe_body env).calls := rfl

theorem transcribe_audio_fragments (env : OrchEnv) :
    (transcribe_audio env).fragments = (transcribe_body env).fragments := rfl

theorem transcribe_audio_registered (env : OrchEnv) :
    (transcribe_audio env).registered = (transcribe_body env).registered := rfl

/-- After the `finally` cleanup, `self.temp_files` is empty. -/
theorem transcribe_audio_temp_files (env : OrchEnv) :
    (transcribe_audio env).temp_files = [] := rfl

theorem transcribe_audio_attempted (env : OrchEnv) :
    (transcribe_audio env).attempted =
      (cleanup_go env.removeFails (transcribe_body env).registered
        (transcribe_body env).disk).2 := rfl

/-- Every file whose removal the cleanup loop attempts was registered. -/
theorem cleanup_go_sub (rf : TPath → Bool) : ∀ (ts disk : List TPath) (p : TPath),
    p ∈ (cleanup_go rf ts disk).2 → p ∈ ts := by
  intro ts
  induction ts with
  | nil => intro disk p h; simp [cleanup_go] at h
  | cons t ts ih =>
    intro disk p h
    rw [cleanup_go] at h
    by_cases ht : t ∈ disk
    · rw [if_pos ht] at h
      rcases List.mem_cons.mp h with rfl | h2
      · exact List.mem_cons_self _ _
      · exact List.mem_cons_of_mem t (ih _ p h2)
    · rw [if_neg ht] at h
      exact List.mem_cons_of_mem t (ih disk p h)

/-- Every registered file that exists on disk has its removal attempted by
the cleanup loop. -/
theorem cleanup_go_covers (rf : TPath → Bool) : ∀ (ts disk : List TPath) (p : TPath),
    p ∈ ts → p ∈ disk → p ∈ (cleanup_go rf ts disk).2 := by
  intro ts
  induction ts with
  | nil => intro disk p h; simp at h
  | cons t ts ih =>
    intro disk p hp hd
    rw [cleanup_go]
    by_cases hd2 : t ∈ disk
    · rw [if_pos hd2]
      by_cases hpt : p = t
      · subst hpt
        exact List.mem_cons_self p _
      · rcases List.mem_cons.mp hp with rfl | hp2
        · exact absurd rfl hpt
        · apply List.mem_cons_of_mem
          apply ih _ p hp2
          by_cases hr : rf t
          · rw [if_pos hr]; exact hd
          · rw [if_neg hr]; exact (List.mem_erase_of_ne hpt).mpr hd
    · rw [if_neg hd2]
      rcases List.mem_cons.mp hp with rfl | hp2
      · exact absurd hd hd2
      · exact ih disk p hp2 hd

/-- Projection rules for the transcription-and-write phase. -/
theorem finishJob_calls (env : OrchEnv) (br : ProcBranch) (files temp disk : List TPath) :
    (finishJob env br files temp disk).calls = files := by
  unfold finishJob
  split <;> rfl

theorem finishJob_branch (env : OrchEnv) (br : ProcBranch) (files temp disk : List TPath) :
    (finishJob env br files temp disk).branch = br := by
  unfold finishJob
  split <;> rfl

theorem finishJob_fragments (env : OrchEnv) (br : ProcBranch) (files temp disk : List TPath) :
    (finishJob env br files temp disk).fragments =
      mkFragments env.transcribe files.length := by
  unfold finishJob
  split <;> rfl

theorem finishJob_registered (env : OrchEnv) (br : ProcBranch) (files temp disk : List TPath) :
    (finishJob env br files temp disk).registered = temp := by
  unfold finishJob
  split <;> rfl

theorem finishJob_disk (env : OrchEnv) (br : ProcBranch) (files temp disk : List TPath) :
    (finishJob env br files temp disk).disk = disk := by
  unfold finishJob
  split <;> rfl

/-- A completed outcome always carries the combination of the fragment
list. -/
theorem finishJob_outcome_completed (env : OrchEnv) (br : ProcBranch)
    (files temp disk : List TPath) (s : String)
    (h : (finishJob env br files temp disk).outcome = .completed s) :
    s = combineTranscripts (mkFragments env.transcribe files.length) := by
  unfold finishJob at h
  by_cases hw : env.writeOk
  · rw [if_pos hw] at h
    have h2 := BodyOutcome.completed.inj h
    exact h2.symm
  · rw [if_neg hw] at h
    exact absurd h (by simp)

/-- Projection rules for a split followed by transcription, conditional on
the split outcome. -/
theorem splitBranchResult_err (env : OrchEnv) (br : ProcBranch) (msg : String)
    (r : SplitResult) (h : r.chunks = none) :
    splitBranchResult env br msg r =
      ⟨.failed msg, br, [], [], r.temp_files, r.disk⟩ := by
  unfold splitBranchResult
  rw [h]

theorem splitBranchResult_okChunks (env : OrchEnv) (br : ProcBranch) (msg : String)
    (r : SplitResult) (cs : List TPath) (h : r.chunks = some cs) :
    splitBranchResult env br msg r = finishJob env br cs r.temp_files r.disk := by
  unfold splitBranchResult
  rw [h]

theorem splitBranchBody_eq (env : OrchEnv) (senv : SplitEnv) (br : ProcBranch)
    (msg : String) (temp disk : List TPath) :
    splitBranchBody env senv br msg temp disk =
      splitBranchResult env br msg (split_audio_file senv temp disk) := rfl

/-- The transcription loop produces one fragment per submitted file,
regardless of per-chunk failures. -/
theorem mkFragments_length (tr : ℕ → Except String String) (n : ℕ) :
    (mkFragments tr n).length = n := by
  simp [mkFragments]

/-- A failed chunk contributes exactly the error placeholder at its
position. -/
theorem mkFragments_get_err (tr : ℕ → Except String String) (n i : ℕ) (e : String)
    (h1 : i < n) (h2 : tr i = .error e) :
    (mkFragments tr n).get? i = some (transcript_placeholder i e) := by
  have hr : (List.range n).get? i = some i := List.get?_range h1
  simp only [mkFragments, List.get?_map, hr, Option.map_some']
  simp [h2]

/-- A successful chunk contributes its transcript text verbatim at its
position. -/
theorem mkFragments_get_ok (tr : ℕ → Except String String) (n i : ℕ) (t : String)
    (h1 : i < n) (h2 : tr i = .ok t) :
    (mkFragments tr n).get? i = some t := by
  have hr : (List.range n).get? i = some i := List.get?_range h1
  simp only [mkFragments, List.get?_map, hr, Option.map_some']
  simp [h2]

theorem splitBranchResult_branch (env : OrchEnv) (br : ProcBranch) (msg : String)
    (r : SplitResult) : (splitBranchResult env br msg r).branch = br := by
  unfold splitBranchResult
  rcases hc : r.chunks with _ | cs
  · rfl
  · exact finishJob_branch env br cs _ _

theorem afterAnalysis_eq_processLarge (env : OrchEnv) (chk : SplitCheck)
    (h1 : chk.error = none) (h2 : chk.needs_split = true) :
    afterAnalysis env chk = processLarge env := by
  rcases chk with ⟨b, s, d, err⟩
  cases err with
  | some e => exact absurd h1 (by simp)
  | none =>
    cases b with
    | true => exact afterAnalysis_split env s d
    | false => exact absurd h2 (by simp)

theorem afterAnalysis_eq_pass (env : OrchEnv) (chk : SplitCheck)
    (h1 : chk.error = none) (h2 : chk.needs_split = false) :
    afterAnalysis env chk = finishJob env .passthrough [TPath.original] [] [] := by
  rcases chk with ⟨b, s, d, err⟩
  cases err with
  | some e => exact absurd h1 (by simp)
  | none =>
    cases b with
    | false => exact afterAnalysis_pass env s d
    | true => exact absurd h2 (by simp)

/-! Claims about the Orchestrator. -/

/-- C1 (counterexample): a readable 30 MiB file (31457280 bytes, above the
25 MiB limit) whose duration probe fails does not fall back to a size-only
decision: `needs_splitting` reports `needs_split = False` together with the
probe error, and `transcribe_audio` aborts with the "Analysis failed" status
before any transcription call, contrary to the claim that the pipeline
proceeds on size alone. -/
theorem c1_counterexample :
    31457280 > 25 * 1024 * 1024 ∧
      (needs_splitting (some 31457280) none).needs_split = false ∧
      (needs_splitting (some 31457280) none).error = some "Failed to get audio duration" ∧
      (transcribe_audio ⟨some 31457280, none, CompressOutcome.ffmpegFail "" false,
        ⟨0, fun _ => 0, fun _ => 0⟩, ⟨0, fun _ => 0, fun _ => 0⟩,
        fun _ => Except.ok "", true, fun _ => false⟩).outcome =
          BodyOutcome.failed "Analysis failed" ∧
      (transcribe_audio ⟨some 31457280, none, CompressOutcome.ffmpegFail "" false,
        ⟨0, fun _ => 0, fun _ => 0⟩, ⟨0, fun _ => 0, fun _ => 0⟩,
        fun _ => Except.ok "", true, fun _ => false⟩).calls = [] :=
  ⟨by decide, rfl, rfl, rfl, rfl⟩

/-- C1 (amended): when the duration probe fails but the byte size is
readable, `needs_splitting` returns `needs_split = False` (size alone never
triggers processing) together with the probe error, and `transcribe_audio`
treats the error as fatal: it ends in the "Analysis failed" state with no
transcription call, instead of proceeding with a size-only decision. -/
theorem c1_amended (env : OrchEnv) (s : ℕ)
    (hs : env.sizeRead = some s) (hp : env.probe = none) :
    (needs_splitting env.sizeRead env.probe).needs_split = false ∧
      (needs_splitting env.sizeRead env.probe).error =
        some "Failed to get audio duration" ∧
      (transcribe_audio env).outcome = BodyOutcome.failed "Analysis failed" ∧
      (transcribe_audio env).branch = ProcBranch.analysisFailed ∧
      (transcribe_audio env).calls = [] := by
  have hb : transcribe_body env =
      ⟨.failed "Analysis failed", .analysisFailed, [], [], [], []⟩ := by
    unfold transcribe_body
    rw [hs, hp, needs_splitting_probeFail, afterAnalysis_err]
  refine ⟨?_, ?_, ?_, ?_, ?_⟩
  · rw [hs, hp, needs_splitting_probeFail]
  · rw [hs, hp, needs_splitting_probeFail]
  · rw [transcribe_audio_outcome, hb]
  · rw [transcribe_audio_branch, hb]
  · rw [transcribe_audio_calls, hb]

theorem c1_amended_witness :
    (needs_splitting (some 31457280) none).needs_split = false ∧
      (needs_splitting (some 31457280) none).error =
        some "Failed to get audio duration" ∧
      (transcribe_audio ⟨some 31457280, none, CompressOutcome.ffmpegFail "" true,
        ⟨0, fun _ => 0, fun _ => 0⟩, ⟨0, fun _ => 0, fun _ => 0⟩,
        fun _ => Except.ok "", true, fun _ => false⟩).outcome =
          BodyOutcome.failed "Analysis failed" ∧
      (transcribe_audio ⟨some 31457280, none, CompressOutcome.ffmpegFail "" true,
        ⟨0, fun _ => 0, fun _ => 0⟩, ⟨0, fun _ => 0, fun _ => 0⟩,
        fun _ => Except.ok "", true, fun _ => false⟩).branch =
          ProcBranch.analysisFailed ∧
      (transcribe_audio ⟨some 31457280, none, CompressOutcome.ffmpegFail "" true,
        ⟨0, fun _ => 0, fun _ => 0⟩, ⟨0, fun _ => 0, fun _ => 0⟩,
        fun _ => Except.ok "", true, fun _ => false⟩).calls = [] :=
  c1_amended ⟨some 31457280, none, CompressOutcome.ffmpegFail "" true,
    ⟨0, fun _ => 0, fun _ => 0⟩, ⟨0, fun _ => 0, fun _ => 0⟩,
    fun _ => Except.ok "", true, fun _ => false⟩ 31457280 rfl rfl

/-- C4: the Limit Policy is pure and exact — with both probes known,
`needs_split` is true iff the size exceeds 25 MiB or the duration exceeds
1400 s (stated both in the source's float reading and in exact units); and
when neither limit is exceeded the pipeline takes the passthrough branch,
performing exactly one transcription call, on the original file. -/
theorem c4_limit_policy :
    (∀ s ms : ℕ,
      ((needs_splitting (some s) (some ms)).needs_split = true ↔
        ((s : ℚ) / (1024 * 1024) > 25 ∨ (ms : ℚ) / 1000 > 1400)) ∧
      ((needs_splitting (some s) (some ms)).needs_split = true ↔
        (s > 25 * 1024 * 1024 ∨ ms > 1400 * 1000))) ∧
    (∀ (env : OrchEnv) (s ms : ℕ), env.sizeRead = some s → env.probe = some ms →
      s ≤ 25 * 1024 * 1024 → ms ≤ 1400 * 1000 →
      (transcribe_audio env).calls = [TPath.original] ∧
        (transcribe_audio env).branch = ProcBranch.passthrough) := by
  constructor
  · intro s ms
    exact ⟨needs_split_iff_rat s ms, needs_split_iff s ms⟩
  · intro env s ms hs hp hsle hmle
    have hfalse : (needs_splitting env.sizeRead env.probe).needs_split = false := by
      rw [hs, hp, needs_splitting_known]
      simp only [Bool.or_eq_false_iff, decide_eq_false_iff_not, not_lt,
        max_file_size_mb, max_duration_seconds]
      omega
    have hnone : (needs_splitting env.sizeRead env.probe).error = none := by
      rw [hs, hp, needs_splitting_known]
    have hb : transcribe_body env = finishJob env .passthrough [TPath.original] [] [] := by
      unfold transcribe_body
      exact afterAnalysis_eq_pass env _ hnone hfalse
    constructor
    · rw [transcribe_audio_calls, hb, finishJob_calls]
    · rw [transcribe_audio_branch, hb, finishJob_branch]

theorem c4_limit_policy_witness :
    (transcribe_audio ⟨some 1000, some 2000, CompressOutcome.ffmpegFail "" false,
      ⟨0, fun _ => 0, fun _ => 0⟩, ⟨0, fun _ => 0, fun _ => 0⟩,
      fun _ => Except.ok "hello", true, fun _ => false⟩).calls = [TPath.original] ∧
      (transcribe_audio ⟨some 1000, some 2000, CompressOutcome.ffmpegFail "" false,
        ⟨0, fun _ => 0, fun _ => 0⟩, ⟨0, fun _ => 0, fun _ => 0⟩,
        fun _ => Except.ok "hello", true, fun _ => false⟩).branch =
        ProcBranch.passthrough :=
  c4_limit_policy.2 ⟨some 1000, some 2000, CompressOutcome.ffmpegFail "" false,
    ⟨0, fun _ => 0, fun _ => 0⟩, ⟨0, fun _ => 0, fun _ => 0⟩,
    fun _ => Except.ok "hello", true, fun _ => false⟩ 1000 2000 rfl rfl
    (by decide) (by decide)

/-- C10: a successful `compress_audio` always satisfies both limits (its
success path is gated by the same check), so the orchestrator's
post-compression re-check always passes and the branch that would split the
compressed file is unreachable; when compression reports a failure
(including "still exceeds limits"), the Splitter runs on the original
file. -/
theorem c10_compress_branching :
    (∀ (o : CompressOutcome) (q : ℕ × ℕ), compress_audio o = .ok q →
      q.1 ≤ max_file_size_mb * 1024 * 1024 ∧ q.2 ≤ max_duration_seconds * 1000) ∧
    (∀ env : OrchEnv, (transcribe_audio env).branch ≠ ProcBranch.splitOfCompressed) ∧
    (∀ (env : OrchEnv) (m : String),
      (needs_splitting env.sizeRead env.probe).error = none →
      (needs_splitting env.sizeRead env.probe).needs_split = true →
      compress_audio env.compress = .error m →
      (transcribe_audio env).branch = ProcBranch.splitOfOriginal) := by
  refine ⟨compress_audio_ok_le, ?_, ?_⟩
  · intro env
    rw [transcribe_audio_branch]
    show (afterAnalysis env (needs_splitting env.sizeRead env.probe)).branch ≠ _
    generalize needs_splitting env.sizeRead env.probe = chk
    rcases chk with ⟨b, s, d, err⟩
    cases err with
    | some e =>
      rw [afterAnalysis_err]
      simp
    | none =>
      cases b with
      | false =>
        rw [afterAnalysis_pass, finishJob_branch]
        simp
      | true =>
        rw [afterAnalysis_split]
        rcases hC : compress_audio env.compress with m | q
        · rw [processLarge_compressFail env m hC, splitBranchBody_eq,
            splitBranchResult_branch]
          simp
        · have hle := compress_audio_ok_le env.compress q hC
          rw [processLarge_fit env q hC hle, finishJob_branch]
          simp
  · intro env m hE hT hC
    rw [transcribe_audio_branch]
    have hb : transcribe_body env = splitBranchBody env env.splitOriginal
        .splitOfOriginal "Processing failed" [TPath.compressed]
        (compressDisk env.compress) := by
      unfold transcribe_body
      rw [afterAnalysis_eq_processLarge env _ hE hT]
      exact processLarge_compressFail env m hC
    rw [hb, splitBranchBody_eq, splitBranchResult_branch]

theorem c10_compress_branching_witness :
    (transcribe_audio ⟨some 31457280, some 1000, CompressOutcome.ffmpegFail "boom" true,
      ⟨1000, fun _ => 0, fun _ => 0⟩, ⟨1000, fun _ => 0, fun _ => 0⟩,
      fun _ => Except.ok "", true, fun _ => false⟩).branch =
      ProcBranch.splitOfOriginal :=
  c10_compress_branching.2.2 ⟨some 31457280, some 1000,
    CompressOutcome.ffmpegFail "boom" true,
    ⟨1000, fun _ => 0, fun _ => 0⟩, ⟨1000, fun _ => 0, fun _ => 0⟩,
    fun _ => Except.ok "", true, fun _ => false⟩ "Compression failed: boom"
    rfl (by decide) rfl

theorem finishJob_frag_calls (env : OrchEnv) (br : ProcBranch) (files temp disk : List TPath) :
    (finishJob env br files temp disk).fragments =
      mkFragments env.transcribe ((finishJob env br files temp disk).calls.length) := by
  rw [finishJob_fragments, finishJob_calls]

theorem splitBranchResult_frag_calls (env : OrchEnv) (br : ProcBranch) (msg : String)
    (r : SplitResult) :
    (splitBranchResult env br msg r).fragments =
      mkFragments env.transcribe ((splitBranchResult env br msg r).calls.length) := by
  obtain ⟨co, er, tf, dk⟩ := r
  cases co with
  | none => simp [splitBranchResult, mkFragments]
  | some cs => exact finishJob_frag_calls env br cs tf dk

/-- In every branch, the fragment list of the job body is the transcription
loop's output over all submitted files. -/
theorem transcribe_body_fragments (env : OrchEnv) :
    (transcribe_body env).fragments =
      mkFragments env.transcribe ((transcribe_body env).calls.length) := by
  show (afterAnalysis env (needs_splitting env.sizeRead env.probe)).fragments =
    mkFragments env.transcribe
      ((afterAnalysis env (needs_splitting env.sizeRead env.probe)).calls.length)
  generalize needs_splitting env.sizeRead env.probe = chk
  rcases chk with ⟨b, s, d, err⟩
  cases err with
  | some e =>
    rw [afterAnalysis_err]
    simp [mkFragments]
  | none =>
    cases b with
    | false =>
      rw [afterAnalysis_pass]
      exact finishJob_frag_calls env _ _ _ _
    | true =>
      rw [afterAnalysis_split]
      rcases hC : compress_audio env.compress with m | q
      · rw [processLarge_compressFail env m hC, splitBranchBody_eq]
        exact splitBranchResult_frag_calls env _ _ _
      · by_cases hfit : q.1 ≤ max_file_size_mb * 1024 * 1024 ∧
            q.2 ≤ max_duration_seconds * 1000
        · rw [processLarge_fit env q hC hfit]
          exact finishJob_frag_calls env _ _ _ _
        · rw [processLarge_unfit env q hC hfit, splitBranchBody_eq]
          exact splitBranchResult_frag_calls env _ _ _

theorem finishJob_completed_frag (env : OrchEnv) (br : ProcBranch)
    (files temp disk : List TPath) (s : String)
    (h : (finishJob env br files temp disk).outcome = .completed s) :
    s = combineTranscripts ((finishJob env br files temp disk).fragments) := by
  rw [finishJob_fragments]
  exact finishJob_outcome_completed env br files temp disk s h

theorem splitBranchResult_completed_frag (env : OrchEnv) (br : ProcBranch) (msg : String)
    (r : SplitResult) (s : String)
    (h : (splitBranchResult env br msg r).outcome = .completed s) :
    s = combineTranscripts ((splitBranchResult env br msg r).fragments) := by
  obtain ⟨co, er, tf, dk⟩ := r
  cases co with
  | none => exact absurd h (by simp [splitBranchResult])
  | some cs => exact finishJob_completed_frag env br cs tf dk s h

/-- A job that completes with transcript `s` produced `s` by combining its
fragment list. -/
theorem transcribe_body_completed (env : OrchEnv) (s : String)
    (h : (transcribe_body env).outcome = .completed s) :
    s = combineTranscripts ((transcribe_body env).fragments) := by
  rw [show transcribe_body env = afterAnalysis env (needs_splitting env.sizeRead env.probe)
    from rfl] at h ⊢
  generalize needs_splitting env.sizeRead env.probe = chk at h ⊢
  rcases chk with ⟨b, sz, d, err⟩
  cases err with
  | some e =>
    rw [afterAnalysis_err] at h
    exact absurd h (by simp)
  | none =>
    cases b with
    | false =>
      rw [afterAnalysis_pass] at h ⊢
      exact finishJob_completed_frag env _ _ _ _ s h
    | true =>
      rw [afterAnalysis_split] at h ⊢
      rcases hC : compress_audio env.compress with m | q
      · rw [processLarge_compressFail env m hC, splitBranchBody_eq] at h ⊢
        exact splitBranchResult_completed_frag env _ _ _ s h
      · by_cases hfit : q.1 ≤ max_file_size_mb * 1024 * 1024 ∧
            q.2 ≤ max_duration_seconds * 1000
        · rw [processLarge_fit env q hC hfit] at h ⊢
          exact finishJob_completed_frag env _ _ _ _ s h
        · rw [processLarge_unfit env q hC hfit, splitBranchBody_eq] at h ⊢
          exact splitBranchResult_completed_frag env _ _ _ s h

/-- C5: per-chunk failures never abort the job: the transcription loop
yields exactly one fragment per submitted file, a failed chunk at 0-based
position `i` contributes exactly the placeholder naming chunk `i+1` with the
failure reason, every successful chunk contributes its text verbatim at its
own position, the job's fragment list is always this loop output over all
submitted files, and a completed job's transcript is the in-order
combination of that fragment list. -/
theorem c5_per_chunk_failure :
    (∀ (tr : ℕ → Except String String) (n : ℕ), (mkFragments tr n).length = n) ∧
    (∀ (tr : ℕ → Except String String) (n i : ℕ) (e : String), i < n → tr i = .error e →
      (mkFragments tr n).get? i = some (transcript_placeholder i e)) ∧
    (∀ (tr : ℕ → Except String String) (n j : ℕ) (t : String), j < n → tr j = .ok t →
      (mkFragments tr n).get? j = some t) ∧
    (∀ env : OrchEnv, (transcribe_audio env).fragments =
      mkFragments env.transcribe ((transcribe_audio env).calls.length)) ∧
    (∀ (env : OrchEnv) (s : String),
      (transcribe_audio env).outcome = BodyOutcome.completed s →
      s = combineTranscripts ((transcribe_audio env).fragments)) := by
  refine ⟨mkFragments_length, mkFragments_get_err, mkFragments_get_ok, ?_, ?_⟩
  · intro env
    rw [transcribe_audio_fragments, transcribe_audio_calls]
    exact transcribe_body_fragments env
  · intro env s h
    rw [transcribe_audio_outcome] at h
    rw [transcribe_audio_fragments]
    exact transcribe_body_completed env s h

theorem c5_per_chunk_failure_witness :
    1 < 3 ∧
      (mkFragments (fun i => if i = 1 then Except.error "boom" else Except.ok "text") 3).get? 1 =
        some (transcript_placeholder 1 "boom") :=
  ⟨by decide, c5_per_chunk_failure.2.1
    (fun i => if i = 1 then Except.error "boom" else Except.ok "text") 3 1 "boom"
    (by decide) rfl⟩

/-- C9: for every job, whatever its outcome, the `finally` cleanup leaves
`self.temp_files` empty, attempts removal of every registered temporary file
that exists on disk, never attempts a file that was not registered, and
never changes the job's outcome (removal errors are absorbed). -/
theorem c9_cleanup :
    (∀ env : OrchEnv, (transcribe_audio env).temp_files = []) ∧
    (∀ (env : OrchEnv) (p : TPath), p ∈ (transcribe_audio env).registered →
      p ∈ (transcribe_body env).disk → p ∈ (transcribe_audio env).attempted) ∧
    (∀ (env : OrchEnv) (p : TPath), p ∈ (transcribe_audio env).attempted →
      p ∈ (transcribe_audio env).registered) ∧
    (∀ env : OrchEnv, (transcribe_audio env).outcome = (transcribe_body env).outcome) := by
  refine ⟨transcribe_audio_temp_files, ?_, ?_, transcribe_audio_outcome⟩
  · intro env p h1 h2
    rw [transcribe_audio_registered] at h1
    rw [transcribe_audio_attempted]
    exact cleanup_go_covers env.removeFails _ _ p h1 h2
  · intro env p h
    rw [transcribe_audio_attempted] at h
    rw [transcribe_audio_registered]
    exact cleanup_go_sub env.removeFails _ _ p h

theorem c9_cleanup_witness :
    TPath.compressed ∈ (transcribe_audio ⟨some 31457280, some 1000,
      CompressOutcome.written 1000 (some 1000), ⟨0, fun _ => 0, fun _ => 0⟩,
      ⟨0, fun _ => 0, fun _ => 0⟩, fun _ => Except.ok "x", true,
      fun _ => false⟩).attempted :=
  c9_cleanup.2.1 ⟨some 31457280, some 1000, CompressOutcome.written 1000 (some 1000),
    ⟨0, fun _ => 0, fun _ => 0⟩, ⟨0, fun _ => 0, fun _ => 0⟩,
    fun _ => Except.ok "x", true, fun _ => false⟩ TPath.compressed
    (by decide) (by decide)

/-! Transcript combination lemmas. -/

theorem string_data_append (a b : String) : (a ++ b).data = a.data ++ b.data := rfl

theorem combine_go_spec : ∀ (ts : List String) (i : ℕ) (acc : String), 0 < i →
    combine_go i acc ts = acc ++ spec_join_tail (i + 1) ts := by
  intro ts
  induction ts with
  | nil =>
    intro i acc h
    show acc = acc ++ ""
    apply String.ext
    simp [string_data_append]
  | cons t rest ih =>
    intro i acc h
    show combine_go (i + 1) ((if 0 < i then acc ++ partSeparator (i + 1) else acc) ++ t) rest =
      acc ++ (partSeparator (i + 1) ++ t ++ spec_join_tail (i + 2) rest)
    rw [if_pos h]
    rw [ih (i + 1) ((acc ++ partSeparator (i + 1)) ++ t) (by omega)]
    apply String.ext
    simp [string_data_append]

theorem combineTranscripts_eq_spec : ∀ ts : List String,
    combineTranscripts ts = spec_combined ts := by
  intro ts
  match ts with
  | [] => rfl
  | [t] => rfl
  | t :: u :: rest =>
    show (if (t :: u :: rest).length = 1 then (t :: u :: rest).headD ""
      else combine_go 0 "" (t :: u :: rest)) = _
    rw [if_neg (by simp)]
    rw [show combine_go 0 "" (t :: u :: rest) = combine_go 1 ("" ++ t) (u :: rest) from by
      rw [combine_go, if_neg (by omega)]]
    rw [combine_go_spec (u :: rest) 1 ("" ++ t) (by omega)]
    show ("" ++ t) ++ spec_join_tail 2 (u :: rest) = t ++ spec_join_tail 2 (u :: rest)
    apply String.ext
    simp [string_data_append]

theorem isPre_append_self : ∀ (l r : List Char), l.isPrefixOf (l ++ r) = true := by
  intro l
  induction l with
  | nil => intro r; simp [List.isPrefixOf]
  | cons a as ih => intro r; simp [List.isPrefixOf, ih]

theorem splitOnFirst_at_sep (sep1 : List Char) : ∀ (t r : List Char),
    (∀ c ∈ t, c ≠ '\n') →
    splitOnFirst ('\n' :: sep1) (t ++ (('\n' :: sep1) ++ r)) = some (t, r) := by
  intro t
  induction t with
  | nil =>
    intro r hc
    show splitOnFirst ('\n' :: sep1) ('\n' :: (sep1 ++ r)) = some ([], r)
    rw [splitOnFirst, if_pos (show ('\n' :: sep1).isPrefixOf ('\n' :: (sep1 ++ r)) = true
      from isPre_append_self ('\n' :: sep1) r)]
    rw [show ('\n' :: (sep1 ++ r)) = (('\n' :: sep1) ++ r) from rfl, List.drop_left]
  | cons c t1 ih =>
    intro r hc
    have hcn : c ≠ '\n' := hc c (List.mem_cons_self c t1)
    show splitOnFirst ('\n' :: sep1) (c :: (t1 ++ (('\n' :: sep1) ++ r))) = some (c :: t1, r)
    rw [splitOnFirst]
    rw [if_neg (by
      simp only [List.isPrefixOf, Bool.and_eq_true, beq_iff_eq]
      intro h2
      exact hcn h2.1.symm)]
    rw [ih r (fun x hx => hc x (List.mem_cons_of_mem c hx))]

theorem sepData_cons (k : ℕ) : ∃ tl, sepData k = '\n' :: tl := ⟨_, rfl⟩

theorem recoverSegs_spec : ∀ (ts : List String) (k : ℕ) (t : List Char),
    (∀ c ∈ t, c ≠ '\n') → (∀ u ∈ ts, ∀ c ∈ u.data, c ≠ '\n') →
    recoverSegs ts.length k (t ++ (spec_join_tail k ts).data) =
      some (t :: ts.map String.data) := by
  intro ts
  induction ts with
  | nil =>
    intro k t ht hts
    show recoverSegs 0 k (t ++ "".data) = some [t]
    rw [show t ++ "".data = t from by simp]
    rfl
  | cons u rest ih =>
    intro k t ht hts
    show recoverSegs (rest.length + 1) k
      (t ++ (partSeparator k ++ u ++ spec_join_tail (k + 1) rest).data) =
        some (t :: u.data :: rest.map String.data)
    have hdata : (partSeparator k ++ u ++ spec_join_tail (k + 1) rest).data =
        sepData k ++ (u.data ++ (spec_join_tail (k + 1) rest).data) := by
      simp [sepData, string_data_append]
    rw [hdata]
    rw [recoverSegs]
    obtain ⟨tl, htl⟩ := sepData_cons k
    rw [htl]
    rw [splitOnFirst_at_sep tl t (u.data ++ (spec_join_tail (k + 1) rest).data) ht]
    show (recoverSegs rest.length (k + 1)
        (u.data ++ (spec_join_tail (k + 1) rest).data)).map (fun l => t :: l) =
      some (t :: u.data :: rest.map String.data)
    rw [ih (k + 1) u.data (hts u (List.mem_cons_self u rest))
      (fun v hv => hts v (List.mem_cons_of_mem u hv))]
    rfl

/-- C8: a single fragment passes through `combineTranscripts` unmodified;
for any fragment list the combined transcript has exactly the specified
shape — fragment 1, then for each `k = 2..N` the separator
`"\n\n--- Part k ---\n\n"` followed by fragment `k` — and for
newline-free fragments, splitting the combined transcript at the separators
(in order) recovers exactly the `N` original segments. -/
theorem c8_combine :
    (∀ t : String, combineTranscripts [t] = t) ∧
    (∀ ts : List String, combineTranscripts ts = spec_combined ts) ∧
    (∀ ts : List String, 1 ≤ ts.length →
      (∀ u ∈ ts, ∀ c ∈ u.data, c ≠ '\n') →
      recoverSegs (ts.length - 1) 2 (combineTranscripts ts).data =
          some (ts.map String.data) ∧
        (ts.map String.data).length = ts.length) := by
  refine ⟨fun t => rfl, combineTranscripts_eq_spec, ?_⟩
  intro ts hlen hclean
  refine ⟨?_, by simp⟩
  rcases ts with _ | ⟨t, rest2⟩
  · exact absurd hlen (by simp)
  · rcases rest2 with _ | ⟨u, rest⟩
    · rfl
    · rw [combineTranscripts_eq_spec]
      show recoverSegs (u :: rest).length 2
        ((t ++ spec_join_tail 2 (u :: rest)).data) =
          some (t.data :: (u :: rest).map String.data)
      rw [string_data_append]
      exact recoverSegs_spec (u :: rest) 2 t.data (hclean t (by simp))
        (fun v hv => hclean v (by simp [hv]))

theorem c8_combine_witness :
    1 ≤ (["hello", "world"] : List String).length ∧
      (recoverSegs ((["hello", "world"] : List String).length - 1) 2
          (combineTranscripts ["hello", "world"]).data =
            some ((["hello", "world"] : List String).map String.data) ∧
        ((["hello", "world"] : List String).map String.data).length =
          (["hello", "world"] : List String).length) :=
  ⟨by decide, c8_combine.2.2 ["hello", "world"] (by decide) (by decide)⟩
